import Mathlib

/-!
# Verification of Roam's network-configuration core (`src/network_config.rs`)

This file gives a shallow embedding, in Lean 4, of the key-token codec, the
subnet parser and the configuration assembler of the Roam repository, and
proves the specified properties about them.

Conventions of the embedding:
* Rust byte sequences (`Vec<u8>`) are `List Nat` together with the side
  condition that every element is `< 256`.
* Rust strings are `List Char`; `String.data` converts Lean string literals.
* Fallible Rust functions returning `Result` become `Except`.
* The `error_chain` string errors of `string_to_ip_cidr` and
  `new_network_prompt` are modelled by the inductive `ParseError`, one
  constructor per distinct `bail!`/`chain_err` site in the source.
-/

deriving instance DecidableEq for Except

/-- Character of the base64 URL_SAFE alphabet (`A-Z`, `a-z`, `0-9`, `-`, `_`)
at index `n`, as used by `base64::encode_config(.., URL_SAFE_NO_PAD)`. -/
def b64Char (n : Nat) : Char :=
  if n < 26 then Char.ofNat (65 + n)
  else if n < 52 then Char.ofNat (97 + (n - 26))
  else if n < 62 then Char.ofNat (48 + (n - 52))
  else if n = 62 then '-'
  else '_'

/-- Index of a character in the base64 URL_SAFE alphabet, `none` for a
character outside the alphabet (as rejected by `base64::decode_config`). -/
def b64Val (c : Char) : Option Nat :=
  if 65 ≤ c.toNat ∧ c.toNat ≤ 90 then some (c.toNat - 65)
  else if 97 ≤ c.toNat ∧ c.toNat ≤ 122 then some (c.toNat - 97 + 26)
  else if 48 ≤ c.toNat ∧ c.toNat ≤ 57 then some (c.toNat - 48 + 52)
  else if c = '-' then some 62
  else if c = '_' then some 63
  else none

/-- Embedding of `base64::encode_config(bytes, base64::URL_SAFE_NO_PAD)`:
each 3-byte group becomes 4 alphabet characters; a trailing group of 1 or 2
bytes becomes 2 or 3 characters, with no `=` padding. -/
def encodeB64 : List Nat → List Char
  | [] => []
  | [b1] => [b64Char (b1 / 4), b64Char (b1 % 4 * 16)]
  | [b1, b2] =>
    [b64Char (b1 / 4), b64Char (b1 % 4 * 16 + b2 / 16), b64Char (b2 % 16 * 4)]
  | b1 :: b2 :: b3 :: rest =>
    b64Char (b1 / 4) :: b64Char (b1 % 4 * 16 + b2 / 16) ::
    b64Char (b2 % 16 * 4 + b3 / 64) :: b64Char (b3 % 64) :: encodeB64 rest

/-- Embedding of `base64::decode_config(text, base64::URL_SAFE_NO_PAD)`:
fails on any character outside the alphabet and on input length `≡ 1 mod 4`;
the empty input decodes to the empty byte sequence.  (The base64 crate
revision the repository builds against does not reject set trailing bits in
a final partial group, and neither does this model.) -/
def decodeB64 : List Char → Option (List Nat)
  | [] => some []
  | [_] => none
  | [c1, c2] =>
    match b64Val c1, b64Val c2 with
    | some s1, some s2 => some [s1 * 4 + s2 / 16]
    | _, _ => none
  | [c1, c2, c3] =>
    match b64Val c1, b64Val c2, b64Val c3 with
    | some s1, some s2, some s3 => some [s1 * 4 + s2 / 16, s2 % 16 * 16 + s3 / 4]
    | _, _, _ => none
  | c1 :: c2 :: c3 :: c4 :: rest =>
    match b64Val c1, b64Val c2, b64Val c3, b64Val c4, decodeB64 rest with
    | some s1, some s2, some s3, some s4, some bs =>
      some ((s1 * 4 + s2 / 16) :: (s2 % 16 * 16 + s3 / 4) :: (s3 % 4 * 64 + s4) :: bs)
    | _, _, _, _, _ => none

/-- Embedding of Rust's `str::split(c)`: the list of (possibly empty)
runs between occurrences of `c`; on the empty string it yields `[[]]`,
exactly as Rust's `split` yields one empty item. -/
def splitOnChar (c : Char) : List Char → List (List Char)
  | [] => [[]]
  | x :: xs =>
    match splitOnChar c xs with
    | [] => if x = c then [[], []] else [[x]]
    | r :: rs => if x = c then [] :: r :: rs else (x :: r) :: rs

/-- Embedding of `struct NetworkKey` from `network_config.rs`. -/
structure NetworkKey where
  access_key : List Nat
  secret_key : Option (List Nat)
deriving DecidableEq

/-- A `NetworkKey` whose elements are actual bytes (each `< 256`), the side
condition carried by Rust's `Vec<u8>` representation. -/
def NetworkKey.Valid (k : NetworkKey) : Prop :=
  (∀ b ∈ k.access_key, b < 256) ∧ ∀ b ∈ k.secret_key.getD [], b < 256

instance (k : NetworkKey) : Decidable k.Valid := by
  unfold NetworkKey.Valid
  infer_instance

/-- Embedding of `impl ToString for NetworkKey`: base64-encode the access
key; when a secret key is present, append `:` and its base64 encoding. -/
def NetworkKey.toString (k : NetworkKey) : List Char :=
  match k.secret_key with
  | some sec => encodeB64 k.access_key ++ ':' :: encodeB64 sec
  | none => encodeB64 k.access_key

/-- Embedding of `impl FromStr for NetworkKey`: split on `:`, decode each
segment, silently dropping segments that fail to decode (`flat_map` over the
`Result` iterator); the first decoded segment is the access key, the second,
if any, the secret key; error when no segment decodes. -/
def NetworkKey.from_str (s : List Char) : Except String NetworkKey :=
  match (splitOnChar ':' s).filterMap decodeB64 with
  | [] => Except.error "failed to deserialize access key"
  | a :: rest => Except.ok ⟨a, rest.head?⟩

/-- An IP address, the embedding of `std::net::IpAddr`: four decimal octets
for v4, eight 16-bit groups for v6. -/
inductive IpAddr where
  | v4 (a b c d : Nat)
  | v6 (g1 g2 g3 g4 g5 g6 g7 g8 : Nat)
deriving DecidableEq

/-- Embedding of `IpAddr::is_ipv4`. -/
def IpAddr.is_ipv4 : IpAddr → Bool
  | .v4 .. => true
  | .v6 .. => false

/-- Embedding of `IpAddr::is_ipv6`. -/
def IpAddr.is_ipv6 : IpAddr → Bool
  | .v4 .. => false
  | .v6 .. => true

/-- Value of a decimal digit string (digit-ness is checked by the callers). -/
def natOfDecDigits (g : List Char) : Nat :=
  g.foldl (fun a c => a * 10 + (c.toNat - 48)) 0

/-- Modelled from the spec: one octet of the textual IPv4 address format
accepted by the standard library's address parser (which the source calls
through `str::parse::<IpAddr>`): one to three decimal digits, no redundant
leading zero, value at most 255. -/
def parseOctet (g : List Char) : Option Nat :=
  if g = [] ∨ 3 < g.length then none
  else if ¬ g.all (fun c => c.isDigit) then none
  else if g.head? = some '0' ∧ g ≠ ['0'] then none
  else if natOfDecDigits g ≤ 255 then some (natOfDecDigits g) else none

/-- Modelled from the spec: the dotted-quad IPv4 notation of the standard
address parser — exactly four octets separated by `.`. -/
def parseIpv4Quad (cs : List Char) : Option (Nat × Nat × Nat × Nat) :=
  match (splitOnChar '.' cs).mapM parseOctet with
  | some [a, b, c, d] => some (a, b, c, d)
  | _ => none

/-- Value of a hexadecimal digit character. -/
def hexVal (c : Char) : Option Nat :=
  if 48 ≤ c.toNat ∧ c.toNat ≤ 57 then some (c.toNat - 48)
  else if 97 ≤ c.toNat ∧ c.toNat ≤ 102 then some (c.toNat - 97 + 10)
  else if 65 ≤ c.toNat ∧ c.toNat ≤ 70 then some (c.toNat - 65 + 10)
  else none

/-- Modelled from the spec: one 16-bit group of the textual IPv6 format —
one to four hexadecimal digits. -/
def parseHexGroup (g : List Char) : Option Nat :=
  if g = [] ∨ 4 < g.length then none
  else (g.mapM hexVal).map (fun ds => ds.foldl (fun a d => a * 16 + d) 0)

/-- Position of the first `::` in an IPv6 literal: the text before it and
the text after it, or `none` when no `::` occurs. -/
def findDoubleColon : List Char → Option (List Char × List Char)
  | [] => none
  | [_] => none
  | c1 :: c2 :: rest =>
    if c1 = ':' ∧ c2 = ':' then some ([], rest)
    else
      match findDoubleColon (c2 :: rest) with
      | some (pre, post) => some (c1 :: pre, post)
      | none => none

/-- Modelled from the spec: a run of colon-separated IPv6 groups; when
`allowV4` is set the final group may instead be a dotted-quad IPv4 address
standing for the last 32 bits (two 16-bit groups), as the standard parser
accepts in trailing position. -/
def parseSegList : List (List Char) → Bool → Option (List Nat)
  | [], _ => some []
  | [g], allowV4 =>
    if allowV4 && g.contains '.' then
      (parseIpv4Quad g).map (fun q => [q.1 * 256 + q.2.1, q.2.2.1 * 256 + q.2.2.2])
    else (parseHexGroup g).map (fun v => [v])
  | g :: rest, allowV4 =>
    match parseHexGroup g, parseSegList rest allowV4 with
    | some v, some vs => some (v :: vs)
    | _, _ => none

/-- Group run of one side of a `::`, the empty text denoting zero groups. -/
def parseSegPart (cs : List Char) (allowV4 : Bool) : Option (List Nat) :=
  if cs = [] then some [] else parseSegList (splitOnChar ':' cs) allowV4

/-- Packs a list of exactly eight 16-bit groups into an address. -/
def ipv6FromList (gs : List Nat) : Option IpAddr :=
  match gs with
  | [g1, g2, g3, g4, g5, g6, g7, g8] => some (.v6 g1 g2 g3 g4 g5 g6 g7 g8)
  | _ => none

/-- Modelled from the spec: the standard library's IPv6 text parser —
either eight groups with no `::`, or at most seven groups around a single
`::` that stands for the missing zero groups; an embedded dotted-quad IPv4
may supply the final 32 bits. -/
def parseIpv6 (cs : List Char) : Option IpAddr :=
  match findDoubleColon cs with
  | none =>
    match parseSegPart cs true with
    | some gs => ipv6FromList gs
    | none => none
  | some (pre, post) =>
    match parseSegPart pre false, parseSegPart post true with
    | some hd, some tl =>
      if hd.length + tl.length ≤ 7 then
        ipv6FromList (hd ++ List.replicate (8 - hd.length - tl.length) 0 ++ tl)
      else none
    | _, _ => none

/-- Modelled from the spec: `str::parse::<IpAddr>()` as invoked by
`string_to_ip_cidr` — try the IPv4 form first, then the IPv6 form. -/
def parseIpAddr (cs : List Char) : Option IpAddr :=
  match parseIpv4Quad cs with
  | some (a, b, c, d) => some (.v4 a b c d)
  | none => parseIpv6 cs

/-- Modelled from the spec: `str::parse::<u8>()` as invoked for the prefix
length — an optional leading `+`, then one or more decimal digits, value
below 256. -/
def parseU8 (cs : List Char) : Option Nat :=
  let ds :=
    match cs with
    | '+' :: rest => rest
    | _ => cs
  if ds = [] then none
  else if ds.all (fun c => c.isDigit) then
    if natOfDecDigits ds < 256 then some (natOfDecDigits ds) else none
  else none

/-- Error kinds of the subnet parser and the assembler.  The source raises
`error_chain` string errors; each constructor stands for one raise site, in
the spec's naming: `missingField` for the two `ok_or(.. not provided)`
calls, `invalidAddress` for `chain_err(Could not parse IP address)`,
`invalidPrefix` for `chain_err(Could not parse CIDR)`, `prefixOutOfRange`
for `bail!(Invalid CIDR subnet)`, and `emptyName` for
`bail!(A network name needs to be provided.)`. -/
inductive ParseError where
  | missingField
  | invalidAddress
  | invalidPrefix
  | prefixOutOfRange
  | emptyName
deriving DecidableEq

/-- Embedding of `string_to_ip_cidr`: empty input is `Ok(None)`; otherwise
split on `/`, parse the first segment as an IP address and the second as a
`u8` prefix length, check the v4/v6 prefix bound, and return the pair.  The
iterator calls `next()` twice, so segments after the second are ignored. -/
def string_to_ip_cidr (input : List Char) : Except ParseError (Option (IpAddr × Nat)) :=
  if input = [] then Except.ok none
  else
    match splitOnChar '/' input with
    | [] => Except.error .missingField
    | ipStr :: restParts =>
      match parseIpAddr ipStr with
      | none => Except.error .invalidAddress
      | some ip =>
        match restParts with
        | [] => Except.error .missingField
        | cidrStr :: _ =>
          match parseU8 cidrStr with
          | none => Except.error .invalidPrefix
          | some cidr =>
            if (ip.is_ipv4 && decide (30 < cidr)) || (ip.is_ipv6 && decide (126 < cidr)) then
              Except.error .prefixOutOfRange
            else Except.ok (some (ip, cidr))

/-- Text before the first occurrence of `c`, and the text after it
(`none` when `c` does not occur). -/
def splitAtFirst (c : Char) : List Char → List Char × Option (List Char)
  | [] => ([], none)
  | x :: xs =>
    if x = c then ([], some xs)
    else
      match splitAtFirst c xs with
      | (a, r) => (x :: a, r)

/-- Subnet parser as worded by the claim under examination (not the
source): the first `/`-segment must parse as an address and the ENTIRE
remainder after the first `/` must parse as an unsigned integer prefix
length.  Kept only to compare against the source behaviour. -/
def string_to_ip_cidr_claimed (input : List Char) : Except ParseError (Option (IpAddr × Nat)) :=
  if input = [] then Except.ok none
  else
    match splitAtFirst '/' input with
    | (ipStr, restOpt) =>
      match parseIpAddr ipStr with
      | none => Except.error .invalidAddress
      | some ip =>
        match restOpt with
        | none => Except.error .missingField
        | some rest =>
          match parseU8 rest with
          | none => Except.error .invalidPrefix
          | some cidr => Except.ok (some (ip, cidr))

/-- Subnet parser as worded by the amended claim: split on `/`; the first
segment must parse as an address; the SECOND segment (the text between the
first and second `/`, or to the end) must parse as a `u8`; segments after
the second are ignored; a successful parse is further subject to the
30/126 prefix bound. -/
def string_to_ip_cidr_amended (input : List Char) : Except ParseError (Option (IpAddr × Nat)) :=
  if input = [] then Except.ok none
  else
    match splitAtFirst '/' input with
    | (ipStr, restOpt) =>
      match parseIpAddr ipStr with
      | none => Except.error .invalidAddress
      | some ip =>
        match restOpt with
        | none => Except.error .missingField
        | some rest =>
          match parseU8 (splitAtFirst '/' rest).1 with
          | none => Except.error .invalidPrefix
          | some cidr =>
            if (ip.is_ipv4 && decide (30 < cidr)) || (ip.is_ipv6 && decide (126 < cidr)) then
              Except.error .prefixOutOfRange
            else Except.ok (some (ip, cidr))

/-- Embedding of `struct NetworkConfig`. -/
structure NetworkConfig where
  name : List Char
  key : NetworkKey
  network_addr : IpAddr
  cidr : Nat
deriving DecidableEq

/-- Embedding of `new_network_prompt` with its collaborators factored out:
`name` and `ip_cidr` stand for the trimmed answers of the two interactive
prompts and `key` for the keypair minted by `generate_secret_key` (both are
external I/O and entropy).  The control flow — empty-name rejection, subnet
parse with the `?` operator, default `192.168.251.0/24` via `unwrap_or`,
assembly — is translated from the source. -/
def new_network_prompt (name ip_cidr : List Char) (key : NetworkKey) :
    Except ParseError NetworkConfig :=
  if name = [] then Except.error .emptyName
  else
    match string_to_ip_cidr ip_cidr with
    | Except.error e => Except.error e
    | Except.ok r =>
      match r.getD (IpAddr.v4 192 168 251 0, 24) with
      | (ip_addr, cidr) =>
        Except.ok { name := name, key := key, network_addr := ip_addr, cidr := cidr }

/-- Decimal digits of `n`, accumulator- and fuel-based so that it unfolds
by kernel reduction (`fuel` is always at least the digit count). -/
def natToDecCore : Nat → Nat → List Char → List Char
  | 0, _, acc => acc
  | fuel + 1, n, acc =>
    let acc' := Char.ofNat (48 + n % 10) :: acc
    if n < 10 then acc' else natToDecCore fuel (n / 10) acc'

/-- Decimal rendering of a natural number, as Rust's `Display` for integers. -/
def natToDec (n : Nat) : List Char := natToDecCore (n + 1) n []

/-- Lowercase hexadecimal digit character. -/
def hexDigitChar (n : Nat) : Char :=
  if n < 10 then Char.ofNat (48 + n) else Char.ofNat (87 + n)

/-- Lowercase hexadecimal digits of `n`, fuel-based like `natToDecCore`. -/
def natToHexCore : Nat → Nat → List Char → List Char
  | 0, _, acc => acc
  | fuel + 1, n, acc =>
    let acc' := hexDigitChar (n % 16) :: acc
    if n < 16 then acc' else natToHexCore fuel (n / 16) acc'

/-- Lowercase hexadecimal rendering, as Rust's `LowerHex` used for IPv6
groups. -/
def natToHex (n : Nat) : List Char := natToHexCore (n + 1) n []

/-- Length of the run of zero groups at the head of the list. -/
def zeroRunLen : List Nat → Nat
  | 0 :: rest => zeroRunLen rest + 1
  | _ => 0

/-- Start index and length of the first longest run of zero groups at or
after index `i`, ties resolved to the earliest start. -/
def bestZeroRun : List Nat → Nat → Nat × Nat
  | [], _ => (0, 0)
  | x :: rest, i =>
    let cur := zeroRunLen (x :: rest)
    match bestZeroRun rest (i + 1) with
    | (bs, bl) => if bl > cur then (bs, bl) else (i, cur)

/-- Modelled from the spec: the standard `Display` for IPv6 group lists —
compress the first longest run of at least two zero groups to `::`, render
the rest as `:`-separated lowercase hex groups. -/
def formatIpv6Groups (gs : List Nat) : List Char :=
  match bestZeroRun gs 0 with
  | (s, l) =>
    if 2 ≤ l then
      List.intercalate [':'] ((gs.take s).map natToHex) ++ ':' :: ':' ::
        List.intercalate [':'] ((gs.drop (s + l)).map natToHex)
    else List.intercalate [':'] (gs.map natToHex)

/-- Modelled from the spec: the standard `Display` for `IpAddr`, which
serde uses for the human-readable `network_addr` field — dotted decimal for
v4; for v6, the IPv4-mapped special case, else zero-run compression. -/
def ipToString : IpAddr → List Char
  | .v4 a b c d =>
    natToDec a ++ '.' :: natToDec b ++ '.' :: natToDec c ++ '.' :: natToDec d
  | .v6 g1 g2 g3 g4 g5 g6 g7 g8 =>
    if g1 = 0 ∧ g2 = 0 ∧ g3 = 0 ∧ g4 = 0 ∧ g5 = 0 ∧ g6 = 65535 then
      ("::ffff:".data) ++ natToDec (g7 / 256) ++ '.' :: natToDec (g7 % 256) ++
        '.' :: natToDec (g8 / 256) ++ '.' :: natToDec (g8 % 256)
    else formatIpv6Groups [g1, g2, g3, g4, g5, g6, g7, g8]

/-- Escape of one character inside a JSON string, as `serde_json` writes
it: `\"`, `\\`, the short control escapes, `\u00..` for other controls. -/
def jsonEscapeChar (c : Char) : List Char :=
  if c = '"' then ['\\', '"']
  else if c = '\\' then ['\\', '\\']
  else if c.toNat = 8 then ['\\', 'b']
  else if c.toNat = 9 then ['\\', 't']
  else if c.toNat = 10 then ['\\', 'n']
  else if c.toNat = 12 then ['\\', 'f']
  else if c.toNat = 13 then ['\\', 'r']
  else if c.toNat < 32 then
    ['\\', 'u', '0', '0', hexDigitChar (c.toNat / 16), hexDigitChar (c.toNat % 16)]
  else [c]

/-- A JSON string literal: quoted, characters escaped. -/
def jsonStr (s : List Char) : List Char :=
  '"' :: (s.map jsonEscapeChar).flatten ++ ['"']

/-- Embedding of `NetworkConfig::to_json` (`serde_json::to_string` over the
derived serializer): fields in declaration order `name`, `key`,
`network_addr`, `cidr`; `key` rendered through the custom `Serialize` that
calls `to_string`; `network_addr` rendered through `Display`. -/
def NetworkConfig.to_json (cfg : NetworkConfig) : List Char :=
  Char.ofNat 123 ::
    (jsonStr ("name".data) ++ ':' :: jsonStr cfg.name ++ ',' ::
     jsonStr ("key".data) ++ ':' :: jsonStr cfg.key.toString ++ ',' ::
     jsonStr ("network_addr".data) ++ ':' :: jsonStr (ipToString cfg.network_addr) ++ ',' ::
     jsonStr ("cidr".data) ++ ':' :: natToDec cfg.cidr) ++ [Char.ofNat 125]

theorem b64Val_b64Char : ∀ n, n < 64 → b64Val (b64Char n) = some n := by
  decide

theorem b64Val_colon : b64Val ':' = none := by decide

/-- Base64 round-trip on one byte list: decoding the encoding of any list of
bytes recovers it. -/
theorem decodeB64_encodeB64 :
    ∀ bs : List Nat, (∀ b ∈ bs, b < 256) → decodeB64 (encodeB64 bs) = some bs
  | [] => fun _ => rfl
  | [b1] => fun h => by
    have hb1 : b1 < 256 := h b1 (by simp)
    simp only [encodeB64, decodeB64]
    rw [b64Val_b64Char _ (by omega), b64Val_b64Char _ (by omega)]
    simp only [Option.some.injEq, List.cons.injEq, and_true]
    omega
  | [b1, b2] => fun h => by
    have hb1 : b1 < 256 := h b1 (by simp)
    have hb2 : b2 < 256 := h b2 (by simp)
    simp only [encodeB64, decodeB64]
    rw [b64Val_b64Char _ (by omega), b64Val_b64Char _ (by omega),
      b64Val_b64Char _ (by omega)]
    simp only [Option.some.injEq, List.cons.injEq, and_true]
    omega
  | b1 :: b2 :: b3 :: rest => fun h => by
    have hb1 : b1 < 256 := h b1 (by simp)
    have hb2 : b2 < 256 := h b2 (by simp)
    have hb3 : b3 < 256 := h b3 (by simp)
    have ih := decodeB64_encodeB64 rest (fun b hb => h b (by simp [hb]))
    simp only [encodeB64, decodeB64]
    rw [b64Val_b64Char _ (by omega), b64Val_b64Char _ (by omega),
      b64Val_b64Char _ (by omega), b64Val_b64Char _ (by omega), ih]
    simp only [Option.some.injEq, List.cons.injEq]
    refine ⟨by omega, by omega, by omega, trivial⟩

/-- Every character the encoder emits lies in the base64 alphabet, hence is
never the separator `:`. -/
theorem colon_not_mem_encodeB64 :
    ∀ bs : List Nat, (∀ b ∈ bs, b < 256) → ':' ∉ encodeB64 bs
  | [] => fun _ => by simp [encodeB64]
  | [b1] => fun h => by
    have hb1 : b1 < 256 := h b1 (by simp)
    simp only [encodeB64, List.mem_cons, List.not_mem_nil, or_false]
    rintro (hc | hc) <;>
      exact absurd (hc ▸ b64Val_b64Char _ (by omega)) (by simp [b64Val_colon])
  | [b1, b2] => fun h => by
    have hb1 : b1 < 256 := h b1 (by simp)
    have hb2 : b2 < 256 := h b2 (by simp)
    simp only [encodeB64, List.mem_cons, List.not_mem_nil, or_false]
    rintro (hc | hc | hc) <;>
      exact absurd (hc ▸ b64Val_b64Char _ (by omega)) (by simp [b64Val_colon])
  | b1 :: b2 :: b3 :: rest => fun h => by
    have hb1 : b1 < 256 := h b1 (by simp)
    have hb2 : b2 < 256 := h b2 (by simp)
    have hb3 : b3 < 256 := h b3 (by simp)
    have ih := colon_not_mem_encodeB64 rest (fun b hb => h b (by simp [hb]))
    simp only [encodeB64, List.mem_cons]
    rintro (hc | hc | hc | hc | hc)
    · exact absurd (hc ▸ b64Val_b64Char _ (by omega)) (by simp [b64Val_colon])
    · exact absurd (hc ▸ b64Val_b64Char _ (by omega)) (by simp [b64Val_colon])
    · exact absurd (hc ▸ b64Val_b64Char _ (by omega)) (by simp [b64Val_colon])
    · exact absurd (hc ▸ b64Val_b64Char _ (by omega)) (by simp [b64Val_colon])
    · exact ih hc

theorem splitOnChar_ne_nil (c : Char) (l : List Char) : splitOnChar c l ≠ [] := by
  cases l with
  | nil => simp [splitOnChar]
  | cons x xs =>
    simp only [splitOnChar]
    split <;> split <;> simp_all

/-- A list free of the separator splits into itself alone. -/
theorem splitOnChar_of_not_mem {c : Char} :
    ∀ {l : List Char}, c ∉ l → splitOnChar c l = [l]
  | [], _ => rfl
  | x :: xs, h => by
    have hx : ¬ x = c := fun hxc => h (by simp [hxc])
    have ih := @splitOnChar_of_not_mem
      c xs (fun hm : c ∈ xs => h (List.mem_cons_of_mem x hm))
    simp [splitOnChar, ih, hx]

/-- Splitting past a separator: a separator-free prefix becomes the first
segment and splitting continues on the remainder. -/
theorem splitOnChar_append {c : Char} :
    ∀ {l₁ : List Char} (l₂ : List Char), c ∉ l₁ →
      splitOnChar c (l₁ ++ c :: l₂) = l₁ :: splitOnChar c l₂
  | [], l₂, _ => by
    simp only [List.nil_append, splitOnChar]
    rcases h : splitOnChar c l₂ with _ | ⟨r, rs⟩
    · exact absurd h (splitOnChar_ne_nil c l₂)
    · simp
  | x :: xs, l₂, h => by
    have hx : ¬ x = c := fun hxc => h (by simp [hxc])
    have ih := @splitOnChar_append
      c xs l₂ (fun hm : c ∈ xs => h (List.mem_cons_of_mem x hm))
    simp [List.cons_append, splitOnChar, ih, hx]

/-- C1: round-trip — for every NetworkKey, both the access-only variant and
the access+secret variant, decoding the encoded token reproduces the key
byte for byte: `from_str (to_string k) = Ok k`. -/
theorem c1_networkKey_roundtrip (k : NetworkKey) (hk : k.Valid) :
    NetworkKey.from_str k.toString = Except.ok k := by
  obtain ⟨a, sec⟩ := k
  obtain ⟨ha, hs⟩ := hk
  cases sec with
  | none =>
    have hnc := colon_not_mem_encodeB64 a ha
    simp [NetworkKey.toString, NetworkKey.from_str, splitOnChar_of_not_mem hnc,
      decodeB64_encodeB64 a ha]
  | some s =>
    have hsb : ∀ b ∈ s, b < 256 := hs
    have hnc := colon_not_mem_encodeB64 a ha
    have hns := colon_not_mem_encodeB64 s hsb
    simp [NetworkKey.toString, NetworkKey.from_str,
      splitOnChar_append (encodeB64 s) hnc, splitOnChar_of_not_mem hns,
      decodeB64_encodeB64 a ha, decodeB64_encodeB64 s hsb]

theorem c1_networkKey_roundtrip_witness :
    NetworkKey.Valid ⟨[105, 199, 44], some [177, 202, 237]⟩ ∧
    NetworkKey.from_str (NetworkKey.toString ⟨[105, 199, 44], some [177, 202, 237]⟩) =
      Except.ok ⟨[105, 199, 44], some [177, 202, 237]⟩ :=
  ⟨by decide, c1_networkKey_roundtrip ⟨[105, 199, 44], some [177, 202, 237]⟩ (by decide)⟩

/-- C2 counterexample: the claim says the empty input string fails to decode,
but `from_str` on the empty string succeeds with an empty access key — the
empty segment is valid base64 for the empty byte sequence. -/
theorem c2_empty_input_decodes :
    NetworkKey.from_str [] = Except.ok ⟨[], none⟩ := rfl

/-- C2 (amended): `from_str` returns an error exactly when zero
colon-separated segments of the input decode as base64-url-safe-no-padding;
garbage-only input such as `"bad!"` fails, and a single bad segment after a
good one is tolerated.  The empty input string, however, decodes
successfully (its single empty segment decodes to the empty byte sequence). -/
theorem c2_decode_failure_iff :
    (∀ s : List Char,
      NetworkKey.from_str s = Except.error "failed to deserialize access key" ↔
        ∀ t ∈ splitOnChar ':' s, decodeB64 t = none) ∧
    NetworkKey.from_str ("bad!".data) =
      Except.error "failed to deserialize access key" ∧
    NetworkKey.from_str ("accs:bad!".data) = Except.ok ⟨[105, 199, 44], none⟩ := by
  refine ⟨fun s => ?_, rfl, rfl⟩
  unfold NetworkKey.from_str
  rcases h : (splitOnChar ':' s).filterMap decodeB64 with _ | ⟨a, rest⟩
  · exact ⟨fun _ => List.filterMap_eq_nil_iff.mp h, fun _ => rfl⟩
  · have ha : a ∈ (splitOnChar ':' s).filterMap decodeB64 :=
      h ▸ List.mem_cons_self a rest
    obtain ⟨t, ht, hdec⟩ := List.mem_filterMap.mp ha
    constructor
    · intro he
      exact absurd he (by simp)
    · intro hall
      exact absurd hdec (by simp [hall t ht])

/-- C3: the encoder base64-url-safe-no-padding-encodes the access key,
appends `:` and the encoded secret key exactly when one is present, and on
the literal inputs of the repository's tests produces `"accs"` and
`"accs:scrt"`. -/
theorem c3_encoding_format :
    (∀ k : NetworkKey, ∀ sec, k.secret_key = some sec →
      k.toString = encodeB64 k.access_key ++ ':' :: encodeB64 sec) ∧
    (∀ k : NetworkKey, k.secret_key = none → k.toString = encodeB64 k.access_key) ∧
    NetworkKey.toString ⟨[105, 199, 44], none⟩ = ("accs".data) ∧
    NetworkKey.toString ⟨[105, 199, 44], some [177, 202, 237]⟩ = ("accs:scrt".data) := by
  refine ⟨fun k sec hsec => ?_, fun k hnone => ?_, by decide, by decide⟩
  · simp [NetworkKey.toString, hsec]
  · simp [NetworkKey.toString, hnone]

theorem c3_encoding_format_witness :
    NetworkKey.toString ⟨[1, 2], some [3]⟩ = encodeB64 [1, 2] ++ ':' :: encodeB64 [3] :=
  c3_encoding_format.1 ⟨[1, 2], some [3]⟩ [3] rfl

/-- C6: a colon-separated segment that fails base64 decoding is silently
dropped — prepending such a segment to any input leaves the parse result
unchanged — and `"bad!:accs"` decodes to the access-only key `[105,199,44]`. -/
theorem c6_lenient_skip :
    (∀ bad s : List Char, decodeB64 bad = none → ':' ∉ bad →
      NetworkKey.from_str (bad ++ ':' :: s) = NetworkKey.from_str s) ∧
    NetworkKey.from_str ("bad!:accs".data) = Except.ok ⟨[105, 199, 44], none⟩ := by
  refine ⟨fun bad s hdec hnc => ?_, rfl⟩
  unfold NetworkKey.from_str
  rw [splitOnChar_append s hnc]
  simp [List.filterMap_cons, hdec]

theorem c6_lenient_skip_witness :
    NetworkKey.from_str (['!'] ++ ':' :: "accs".data) =
      NetworkKey.from_str ("accs".data) :=
  c6_lenient_skip.1 ['!'] ("accs".data) (by decide) (by decide)

/-- C9: the encoded token of a valid NetworkKey contains no `:` when the
secret key is absent and exactly one `:` when it is present, and splitting
the token on `:` recovers exactly the original encoded segments. -/
theorem c9_separator_invariant (k : NetworkKey) (hk : k.Valid) :
    (k.secret_key = none →
      (NetworkKey.toString k).count ':' = 0 ∧
      splitOnChar ':' k.toString = [encodeB64 k.access_key]) ∧
    (∀ sec, k.secret_key = some sec →
      (NetworkKey.toString k).count ':' = 1 ∧
      splitOnChar ':' k.toString = [encodeB64 k.access_key, encodeB64 sec]) := by
  obtain ⟨a, sec⟩ := k
  obtain ⟨ha, hs⟩ := hk
  constructor
  · intro hnone
    subst hnone
    have hnc := colon_not_mem_encodeB64 a ha
    exact ⟨List.count_eq_zero.mpr hnc, by
      simp [NetworkKey.toString, splitOnChar_of_not_mem hnc]⟩
  · intro s hsec
    cases hsec
    have hsb : ∀ b ∈ s, b < 256 := hs
    have hnc := colon_not_mem_encodeB64 a ha
    have hns := colon_not_mem_encodeB64 s hsb
    constructor
    · simp [NetworkKey.toString, List.count_append, List.count_cons,
        List.count_eq_zero.mpr hnc, List.count_eq_zero.mpr hns]
    · simp [NetworkKey.toString, splitOnChar_append (encodeB64 s) hnc,
        splitOnChar_of_not_mem hns]

theorem c9_separator_invariant_witness :
    (NetworkKey.toString ⟨[105, 199, 44], some [177, 202, 237]⟩).count ':' = 1 ∧
    splitOnChar ':' (NetworkKey.toString ⟨[105, 199, 44], some [177, 202, 237]⟩) =
      [encodeB64 [105, 199, 44], encodeB64 [177, 202, 237]] :=
  (c9_separator_invariant ⟨[105, 199, 44], some [177, 202, 237]⟩ (by decide)).2
    [177, 202, 237] rfl

/-- C10: when the input contains three or more decodable colon-separated
segments, decoding succeeds using the first two as access and secret key,
and every later segment is silently discarded. -/
theorem c10_extra_segments :
    (∀ t1 t2 r : List Char, ∀ b1 b2 : List Nat, ':' ∉ t1 → ':' ∉ t2 →
      decodeB64 t1 = some b1 → decodeB64 t2 = some b2 →
      NetworkKey.from_str (t1 ++ ':' :: (t2 ++ ':' :: r)) = Except.ok ⟨b1, some b2⟩) ∧
    NetworkKey.from_str ("accs:scrt:accs".data) =
      Except.ok ⟨[105, 199, 44], some [177, 202, 237]⟩ := by
  refine ⟨fun t1 t2 r b1 b2 h1 h2 hd1 hd2 => ?_, rfl⟩
  unfold NetworkKey.from_str
  rw [splitOnChar_append _ h1, splitOnChar_append _ h2]
  simp [List.filterMap_cons, hd1, hd2]

theorem c10_extra_segments_witness :
    NetworkKey.from_str (("accs".data) ++ ':' :: (("scrt".data) ++ ':' :: ("AA".data))) =
      Except.ok ⟨[105, 199, 44], some [177, 202, 237]⟩ :=
  c10_extra_segments.1 ("accs".data) ("scrt".data) ("AA".data)
    [105, 199, 44] [177, 202, 237] (by decide) (by decide) (by decide) (by decide)

/-- Splitting on a character, expressed through the first occurrence: the
text before it is the first segment and splitting continues after it. -/
theorem splitOnChar_splitAtFirst (c : Char) :
    ∀ l : List Char,
      splitOnChar c l =
        match splitAtFirst c l with
        | (a, none) => [a]
        | (a, some r) => a :: splitOnChar c r
  | [] => rfl
  | x :: xs => by
    have ih := splitOnChar_splitAtFirst c xs
    by_cases hx : x = c
    · subst hx
      rcases hsp : splitOnChar x xs with _ | ⟨r, rs⟩
      · exact absurd hsp (splitOnChar_ne_nil x xs)
      · simp [splitOnChar, splitAtFirst, hsp]
    · rcases hf : splitAtFirst c xs with ⟨a, ro⟩
      rw [hf] at ih
      cases ro with
      | none =>
        simp only [splitOnChar, ih, splitAtFirst, hf, if_neg hx]
      | some r =>
        simp only [splitOnChar, ih, splitAtFirst, hf, if_neg hx]

theorem splitOnChar_headI_eq (c : Char) (l : List Char) :
    (splitOnChar c l).headI = (splitAtFirst c l).1 := by
  rcases h : splitAtFirst c l with ⟨a, ro⟩
  rw [splitOnChar_splitAtFirst c l, h]
  cases ro <;> simp

/-- C4: whenever the address and the prefix both parse, a prefix above 30
for an IPv4 address or above 126 for an IPv6 address is rejected as out of
range; in particular `192.168.1.1/24` and `fe80::1/64` parse, while
`192.168.1.1/64` and `fe80::1/130` are rejected. -/
theorem c4_prefix_bounds :
    (∀ (s ipStr cidrStr : List Char) (restP : List (List Char)) (ip : IpAddr) (n : Nat),
      splitOnChar '/' s = ipStr :: cidrStr :: restP →
      parseIpAddr ipStr = some ip → parseU8 cidrStr = some n →
      ((ip.is_ipv4 = true ∧ 30 < n) ∨ (ip.is_ipv6 = true ∧ 126 < n)) →
      string_to_ip_cidr s = Except.error ParseError.prefixOutOfRange) ∧
    string_to_ip_cidr ("192.168.1.1/24".data) = Except.ok (some (.v4 192 168 1 1, 24)) ∧
    string_to_ip_cidr ("192.168.1.1/64".data) = Except.error .prefixOutOfRange ∧
    string_to_ip_cidr ("fe80::1/64".data) = Except.ok (some (.v6 65152 0 0 0 0 0 0 1, 64)) ∧
    string_to_ip_cidr ("fe80::1/130".data) = Except.error .prefixOutOfRange := by
  refine ⟨fun s ipStr cidrStr restP ip n hsplit hip hn hbound => ?_,
    by decide, by decide, by decide, by decide⟩
  have hs : s ≠ [] := by
    intro he
    subst he
    simp [splitOnChar] at hsplit
  simp only [string_to_ip_cidr, if_neg hs, hsplit, hip, hn]
  rcases hbound with ⟨h1, h2⟩ | ⟨h1, h2⟩ <;> simp [h1, h2]

theorem c4_prefix_bounds_witness :
    string_to_ip_cidr ("1.2.3.4/31".data) = Except.error ParseError.prefixOutOfRange :=
  c4_prefix_bounds.1 ("1.2.3.4/31".data) ("1.2.3.4".data) ("31".data) []
    (.v4 1 2 3 4) 31 (by decide) (by decide) (by decide) (Or.inl ⟨rfl, by decide⟩)

/-- C5 counterexample: the claim requires the ENTIRE remainder after the
first `/` to parse as an integer, so on `192.168.1.1/24/99` it would fail
with `InvalidPrefix`; the code parses only the second segment and
succeeds. -/
theorem c5_remainder_counterexample :
    string_to_ip_cidr ("192.168.1.1/24/99".data) = Except.ok (some (.v4 192 168 1 1, 24)) ∧
    string_to_ip_cidr_claimed ("192.168.1.1/24/99".data) = Except.error .invalidPrefix := by
  constructor <;> decide

/-- C5 (amended): the subnet parser returns Ok(None) on empty input and
otherwise behaves as the amended contract — address from the first
`/`-segment, prefix from the second segment only (later segments ignored),
errors named as in the claim, success subject to the prefix bound. -/
theorem c5_subnet_contract :
    ∀ s : List Char, string_to_ip_cidr s = string_to_ip_cidr_amended s := by
  intro s
  by_cases hs : s = []
  · subst hs; rfl
  · unfold string_to_ip_cidr string_to_ip_cidr_amended
    rw [if_neg hs, if_neg hs]
    rcases hf : splitAtFirst '/' s with ⟨ipStr, ro⟩
    rw [splitOnChar_splitAtFirst '/' s, hf]
    cases ro with
    | none =>
      rcases hip : parseIpAddr ipStr with _ | ip <;> simp [hip]
    | some r =>
      rcases hsp : splitOnChar '/' r with _ | ⟨cs, tl⟩
      · exact absurd hsp (splitOnChar_ne_nil '/' r)
      · have h2 := splitOnChar_headI_eq '/' r
        rw [hsp] at h2
        simp only [List.headI] at h2
        simp only [hsp, ← h2]

/-- C7: the assembler rejects an empty name with EmptyName for every subnet
text, propagates subnet parse errors, and substitutes the default subnet
`192.168.251.0/24` when the subnet text is empty. -/
theorem c7_assembler_contract :
    (∀ (subnet : List Char) (key : NetworkKey),
      new_network_prompt [] subnet key = Except.error ParseError.emptyName) ∧
    (∀ (name subnet : List Char) (key : NetworkKey) (e : ParseError), name ≠ [] →
      string_to_ip_cidr subnet = Except.error e →
      new_network_prompt name subnet key = Except.error e) ∧
    (∀ (name : List Char) (key : NetworkKey), name ≠ [] →
      new_network_prompt name [] key =
        Except.ok ⟨name, key, IpAddr.v4 192 168 251 0, 24⟩) := by
  refine ⟨fun subnet key => rfl, fun name subnet key e hname he => ?_,
    fun name key hname => ?_⟩
  · simp [new_network_prompt, hname, he]
  · simp only [new_network_prompt, if_neg hname]
    rfl

theorem c7_assembler_contract_witness :
    new_network_prompt ("TestName".data) ("192.168.1.1".data) ⟨[105, 199, 44], none⟩ =
      Except.error ParseError.missingField ∧
    new_network_prompt ("TestName".data) [] ⟨[105, 199, 44], none⟩ =
      Except.ok ⟨"TestName".data, ⟨[105, 199, 44], none⟩, IpAddr.v4 192 168 251 0, 24⟩ :=
  ⟨c7_assembler_contract.2.1 ("TestName".data) ("192.168.1.1".data)
      ⟨[105, 199, 44], none⟩ ParseError.missingField (by decide) (by decide),
    c7_assembler_contract.2.2 ("TestName".data) ⟨[105, 199, 44], none⟩ (by decide)⟩

/-- C8: serializing the config named TestName with access-only key
`[105,199,44]` and the subnet parsed from `192.168.1.1/24` (resp.
`fe80::1/64`) yields exactly the two JSON records of the repository's
tests, with the key rendered through the codec and the fields in the order
name, key, network_addr, cidr. -/
theorem c8_to_json_records :
    string_to_ip_cidr ("192.168.1.1/24".data) = Except.ok (some (.v4 192 168 1 1, 24)) ∧
    NetworkConfig.to_json ⟨"TestName".data, ⟨[105, 199, 44], none⟩, .v4 192 168 1 1, 24⟩ =
      ("\x7b\"name\":\"TestName\",\"key\":\"accs\",\"network_addr\":\"192.168.1.1\",\"cidr\":24\x7d".data) ∧
    string_to_ip_cidr ("fe80::1/64".data) = Except.ok (some (.v6 65152 0 0 0 0 0 0 1, 64)) ∧
    NetworkConfig.to_json ⟨"TestName".data, ⟨[105, 199, 44], none⟩, .v6 65152 0 0 0 0 0 0 1, 64⟩ =
      ("\x7b\"name\":\"TestName\",\"key\":\"accs\",\"network_addr\":\"fe80::1\",\"cidr\":64\x7d".data) := by
  refine ⟨by decide, by decide, by decide, by decide⟩
